import Mathlib

/-!
Verification of the conversation session store and backup subsystem of the
`claude_lang_chat` terminal chat client (`src/memory_manager.py`,
`src/persistence.py`), against its natural-language specification.

The Python code is shallowly embedded: each class becomes a structure, each
method a pure function returning the updated state (and the Python return
value where there is one).  The wall clock (`datetime.now()`), the model name
read from global configuration (`Config.CLAUDE_MODEL`), the memory ceiling
(`Config.MAX_MEMORY_MESSAGES`) and freshly drawn UUIDs are passed in as
explicit arguments, since the Python code obtains them from ambient state.
Timestamps are kept as opaque strings, exactly as the code stores them.
-/

set_option maxHeartbeats 1000000

/-- Values of the open-ended `metadata` annotation maps attached to messages
(Python passes heterogeneous dicts; only strings and ints occur). -/
inductive MetaValue where
  | str (s : String)
  | nat (n : Nat)
deriving Repr, DecidableEq, Inhabited

/-- Mirror of the `MessageData` dataclass (`memory_manager.py`, lines 13-29). -/
structure MessageData where
  role : String
  content : String
  timestamp : String
  tokens : Nat
  mdata : List (String × MetaValue)
deriving Repr, DecidableEq, Inhabited

/-- Mirror of the `SessionMetadata` dataclass (`memory_manager.py`, lines 32-52). -/
structure SessionMetadata where
  session_id : String
  name : String
  created_at : String
  last_updated : String
  message_count : Nat
  total_tokens : Nat
  model_used : String
  is_active : Bool
  summary : Option String
deriving Repr, DecidableEq, Inhabited

/-- Mirror of the `ConversationSession` class state (`memory_manager.py`,
lines 55-72): the message ledger, the metadata record, and the list of pinned
message positions.  Pinned positions are Python ints, so they are modelled as
`Int` (the `pin_message` guard checks `0 <= index`). -/
structure ConversationSession where
  session_id : String
  name : String
  messages : List MessageData
  metadata : SessionMetadata
  pinned_messages : List Int
deriving Repr, DecidableEq, Inhabited

/-- Python truthiness of an `Optional[str]`: `None` and the empty string are
falsy.  Used wherever the code writes `if not self.current_session_id:` or
`if self.current_session_id:`. -/
def pyFalsy : Option String → Bool
  | none => true
  | some s => s = ""

/-- Python list indexing `l[i]` for an int index: non-negative indices from the
front, negative indices from the back; `none` models the `IndexError` case. -/
def pyIndex (l : List MessageData) (i : Int) : Option MessageData :=
  if 0 ≤ i then l.get? i.toNat
  else if 0 ≤ (l.length : Int) + i then l.get? ((l.length : Int) + i).toNat
  else none

/-- Python slice `l[:-k]` for a natural `k`: everything but the last `k`
elements, except that `l[:-0] = l[:0] = []`. -/
def pySliceDropLast (l : List MessageData) (k : Nat) : List MessageData :=
  if k = 0 then [] else l.take (l.length - k)

/-- Python slice `l[-k:]` for a natural `k`: the last `k` elements, except
that `l[-0:] = l[0:] = l`. -/
def pySliceLast (l : List MessageData) (k : Nat) : List MessageData :=
  if k = 0 then l else l.drop (l.length - k)

/-- `ConversationSession.__init__` (`memory_manager.py`, lines 58-72): the
display name defaults to `"Session " ++ first 8 chars of the id` when the
given name is `None` or empty (Python `name or f"Session {session_id[:8]}"`);
both timestamp fields are initialised from the clock and the model from
configuration. -/
def ConversationSession.init (session_id : String) (name : Option String)
    (now model : String) : ConversationSession :=
  let nm := match name with
    | some n => if n = "" then "Session " ++ (session_id.take 8) else n
    | none => "Session " ++ (session_id.take 8)
  { session_id := session_id
    name := nm
    messages := []
    metadata :=
      { session_id := session_id
        name := nm
        created_at := now
        last_updated := now
        message_count := 0
        total_tokens := 0
        model_used := model
        is_active := false
        summary := none }
    pinned_messages := [] }

/-- `ConversationSession.add_message` (`memory_manager.py`, lines 74-90):
appends a message, sets `message_count` to the new ledger length, adds the
message's tokens to `total_tokens`, and refreshes `last_updated` and
`model_used`. -/
def ConversationSession.add_message (s : ConversationSession)
    (role content : String) (tokens : Nat) (md : List (String × MetaValue))
    (now model : String) : ConversationSession :=
  let message : MessageData :=
    { role := role, content := content, timestamp := now, tokens := tokens
      mdata := md }
  { s with
    messages := s.messages ++ [message]
    metadata :=
      { s.metadata with
        message_count := (s.messages ++ [message]).length
        total_tokens := s.metadata.total_tokens + tokens
        last_updated := now
        model_used := model } }

/-- `ConversationSession.pin_message` (`memory_manager.py`, lines 130-137):
pins a ledger position when it is in range and not yet pinned; returns the
Python boolean result together with the updated session. -/
def ConversationSession.pin_message (s : ConversationSession) (index : Int) :
    Bool × ConversationSession :=
  if 0 ≤ index ∧ index < (s.messages.length : Int) then
    if index ∉ s.pinned_messages then
      (true, { s with pinned_messages := s.pinned_messages ++ [index] })
    else (false, s)
  else (false, s)

/-- `ConversationSession.unpin_message` (`memory_manager.py`, lines 139-145):
removes the first occurrence of the index from the pinned list
(`list.remove`) when present. -/
def ConversationSession.unpin_message (s : ConversationSession) (index : Int) :
    Bool × ConversationSession :=
  if index ∈ s.pinned_messages then
    (true, { s with pinned_messages := s.pinned_messages.erase index })
  else (false, s)

/-- `ConversationSession.clear_messages` (`memory_manager.py`, lines 147-157):
empties the ledger and the pinned list, zeroes both metadata aggregates, and
returns the number of cleared messages. -/
def ConversationSession.clear_messages (s : ConversationSession) (now : String) :
    ConversationSession × Nat :=
  ({ s with
      messages := []
      pinned_messages := []
      metadata :=
        { s.metadata with
          message_count := 0
          total_tokens := 0
          last_updated := now } },
    s.messages.length)

/-- `ConversationSession.export_data` (`memory_manager.py`, lines 185-191):
the exported form of one session — metadata, message list, pinned list. -/
structure SessionExport where
  metadata : SessionMetadata
  messages : List MessageData
  pinned_messages : List Int
deriving Repr, DecidableEq, Inhabited

/-- `ConversationSession.export_data` (`memory_manager.py`, lines 185-191). -/
def ConversationSession.export_data (s : ConversationSession) : SessionExport :=
  { metadata := s.metadata
    messages := s.messages
    pinned_messages := s.pinned_messages }

/-- `ConversationSession.from_export_data` (`memory_manager.py`, lines
193-201): builds a fresh session from the exported id and name (the
constructor consults the clock and configuration), then overwrites its
metadata, messages and pinned list with the exported values. -/
def ConversationSession.from_export_data (d : SessionExport)
    (now model : String) : ConversationSession :=
  let s := ConversationSession.init d.metadata.session_id
    (some d.metadata.name) now model
  { s with
    metadata := d.metadata
    messages := d.messages
    pinned_messages := d.pinned_messages }

/-- The three shapes of dict returned by `MemoryManager.optimize_memory`
(`memory_manager.py`, lines 345-421): the error dict, the two
not-optimized dicts (with their `reason` and `message_count`), and the
success dict. -/
inductive OptimizeResult where
  | error (msg : String)
  | notOptimized (reason : String) (message_count : Nat)
  | optimized (old_count new_count tokens_saved : Nat) (summary_created : Bool)
deriving Repr, DecidableEq

/-- The messages rescued by `optimize_memory` (`memory_manager.py`, lines
365-369): iterate the pinned list in its own order and keep `messages[idx]`
for every pinned `idx` lying in the old prefix (`idx < len - keep`, with
`keep = L / 2`). -/
def rescuedPinned (L : Nat) (s : ConversationSession) : List MessageData :=
  (s.pinned_messages.filter
      (fun idx => idx < (s.messages.length : Int) - ((L / 2 : Nat) : Int))).filterMap
    (fun idx => pyIndex s.messages idx)

/-- The discard set of `optimize_memory` (`memory_manager.py`, lines 371-373):
old-prefix messages (`messages[:-keep]`) whose position is not pinned. -/
def oldUnpinned (L : Nat) (s : ConversationSession) : List MessageData :=
  let old_all := pySliceDropLast s.messages (L / 2)
  (old_all.enum.filter (fun p => ((p.1 : Int) ∉ s.pinned_messages))).map Prod.snd

/-- The synthesized summary message of `optimize_memory` (`memory_manager.py`,
lines 376-390): system role, a count-bearing placeholder content, the first
discarded message's timestamp, and one tenth (integer division) of the
discarded messages' token sum. -/
def summaryMessage (L : Nat) (s : ConversationSession) : MessageData :=
  let old_messages := oldUnpinned L s
  { role := "system"
    content := "[Previous conversation summary: " ++ toString old_messages.length
      ++ " messages exchanged]"
    timestamp := match old_messages with
      | m :: _ => m.timestamp
      | [] => ""   -- unreachable: only used when `old_messages` is nonempty
    tokens := ((old_messages.map MessageData.tokens).sum) / 10
    mdata := [("type", MetaValue.str "summary"),
              ("original_count", MetaValue.nat old_messages.length)] }

/-- The per-session body of `MemoryManager.optimize_memory`
(`memory_manager.py`, lines 352-421), applied after the session lookup:
if the ledger is within the ceiling `L`, report "Session within memory
limits"; otherwise partition into old prefix and recent suffix
(`keep = L / 2`), rescue pinned old-prefix messages, and if any old-prefix
message remains unpinned, replace the ledger by
`[summary] ++ rescued ++ recent`, recompute both metadata aggregates, clear
the pinned list and report success; if every old-prefix message is pinned,
report "No optimization possible" and change nothing. -/
def optimizeSession (L : Nat) (s : ConversationSession) :
    ConversationSession × OptimizeResult :=
  if s.messages.length ≤ L then
    (s, .notOptimized "Session within memory limits" s.messages.length)
  else
    let messages_to_keep := L / 2
    let recent_messages := pySliceLast s.messages messages_to_keep
    let old_messages := oldUnpinned L s
    if old_messages.isEmpty then
      (s, .notOptimized "No optimization possible" s.messages.length)
    else
      let summary_tokens := (old_messages.map MessageData.tokens).sum
      let new_messages :=
        summaryMessage L s :: (rescuedPinned L s ++ recent_messages)
      let old_count := s.messages.length
      ({ s with
          messages := new_messages
          metadata :=
            { s.metadata with
              message_count := new_messages.length
              total_tokens := (new_messages.map MessageData.tokens).sum }
          pinned_messages := [] },
        .optimized old_count new_messages.length
          (summary_tokens - summary_tokens / 10) true)

/-- Insertion-ordered association list standing for the Python dict
`self.sessions` (`memory_manager.py`, line 208). -/
abbrev SessionDict := List (String × ConversationSession)

/-- Dict lookup `self.sessions.get(id)` / membership `id in self.sessions`. -/
def lookupS : SessionDict → String → Option ConversationSession
  | [], _ => none
  | p :: rest, id => if p.1 = id then some p.2 else lookupS rest id

/-- Dict assignment `self.sessions[id] = session`: replace in place when the
key exists, append otherwise (Python dicts keep insertion order). -/
def dictSet (l : SessionDict) (k : String) (v : ConversationSession) : SessionDict :=
  match l with
  | [] => [(k, v)]
  | p :: rest => if p.1 = k then (k, v) :: rest else p :: dictSet rest k v

/-- In-place mutation of the session stored under a key (Python mutates the
aliased `ConversationSession` object); keys absent from the dict are
untouched. -/
def updateS : SessionDict → String → (ConversationSession → ConversationSession) → SessionDict
  | [], _, _ => []
  | p :: rest, k, f =>
      (if p.1 = k then (p.1, f p.2) else p) :: updateS rest k f

/-- Dict deletion `del self.sessions[id]`. -/
def delKey : SessionDict → String → SessionDict
  | [], _ => []
  | p :: rest, k => if p.1 = k then delKey rest k else p :: delKey rest k

/-- Mirror of the `MemoryManager` state (`memory_manager.py`, lines 207-212):
the session dict and the current-session pointer.  The auto-save bookkeeping
fields are wall-clock driven and irrelevant to the store's semantics. -/
structure MemoryManager where
  sessions : SessionDict
  current_session_id : Option String
deriving Repr, DecidableEq, Inhabited

/-- `MemoryManager.__init__` (`memory_manager.py`, lines 207-212). -/
def MemoryManager.init0 : MemoryManager :=
  { sessions := [], current_session_id := none }

/-- Session lookup on the store. -/
def MemoryManager.find (m : MemoryManager) (id : String) :
    Option ConversationSession :=
  lookupS m.sessions id

/-- The session constructed by `MemoryManager.create_session`
(`memory_manager.py`, lines 216-228): a fresh `ConversationSession`, with the
model overridden when the explicit model argument is truthy (`if model:`),
and activated exactly when the store's current-session pointer is falsy. -/
def newSessionFor (m : MemoryManager) (session_id : String)
    (name : Option String) (model : Option String) (now cfgModel : String) :
    ConversationSession :=
  let session := ConversationSession.init session_id name now cfgModel
  let session := match model with
    | some mo =>
        if mo = "" then session
        else { session with metadata := { session.metadata with model_used := mo } }
    | none => session
  if pyFalsy m.current_session_id then
    { session with metadata := { session.metadata with is_active := true } }
  else session

/-- `MemoryManager.create_session` (`memory_manager.py`, lines 214-231): the
fresh UUID is passed in as `session_id`; the constructed session is inserted,
and marked current exactly when the current-session pointer is falsy. -/
def MemoryManager.create_session (m : MemoryManager) (session_id : String)
    (name : Option String) (model : Option String) (now cfgModel : String) :
    MemoryManager × String :=
  ({ sessions := dictSet m.sessions session_id
       (newSessionFor m session_id name model now cfgModel)
     current_session_id :=
       if pyFalsy m.current_session_id then some session_id
       else m.current_session_id },
   session_id)

/-- The deactivation step of `MemoryManager.switch_session`
(`memory_manager.py`, lines 238-240): when the current pointer is truthy, the
session it names has its `is_active` flag cleared. -/
def deactivateCurrent (m : MemoryManager) : SessionDict :=
  match m.current_session_id with
  | some cid =>
      if cid = "" then m.sessions
      else updateS m.sessions cid
        (fun s => { s with metadata := { s.metadata with is_active := false } })
  | none => m.sessions

/-- `MemoryManager.switch_session` (`memory_manager.py`, lines 233-247):
fails on an unknown id; otherwise deactivates the session named by a truthy
current pointer, then activates the target and points `current_session_id`
at it. -/
def MemoryManager.switch_session (m : MemoryManager) (session_id : String) :
    MemoryManager × Bool :=
  if (m.find session_id).isNone then (m, false)
  else
    ({ sessions := updateS (deactivateCurrent m) session_id
         (fun s => { s with metadata := { s.metadata with is_active := true } })
       current_session_id := some session_id }, true)

/-- `MemoryManager.get_current_session` (`memory_manager.py`, lines 249-253):
`None` when the pointer is falsy, else a dict `get` on the pointer. -/
def MemoryManager.get_current_session (m : MemoryManager) :
    Option ConversationSession :=
  match m.current_session_id with
  | some cid => if cid = "" then none else m.find cid
  | none => none

/-- `MemoryManager.delete_session` (`memory_manager.py`, lines 255-270):
fails on an unknown id; when deleting the current session, switches to the
first remaining key or clears the pointer; finally removes the entry. -/
def MemoryManager.delete_session (m : MemoryManager) (session_id : String) :
    MemoryManager × Bool :=
  if (m.find session_id).isNone then (m, false)
  else
    let m1 :=
      if m.current_session_id = some session_id then
        match (m.sessions.map Prod.fst).filter (fun sid => sid ≠ session_id) with
        | r :: _ => (m.switch_session r).1
        | [] => { m with current_session_id := none }
      else m
    ({ m1 with sessions := delKey m1.sessions session_id }, true)

/-- `MemoryManager.add_message` (`memory_manager.py`, lines 309-319): creates
a default session when there is no current one (the fresh UUID for that case
is `freshId`), then appends the message to the current session. -/
def MemoryManager.add_message (m : MemoryManager) (role content : String)
    (tokens : Nat) (md : List (String × MetaValue))
    (now cfgModel freshId : String) : MemoryManager × Bool :=
  let m1 :=
    if (m.get_current_session).isNone then
      (m.create_session freshId (some "Default") none now cfgModel).1
    else m
  match m1.current_session_id with
  | some cid =>
      ({ m1 with sessions := (updateS m1.sessions cid
          (fun s => s.add_message role content tokens md now cfgModel)) }, true)
  | none => (m1, true)   -- unreachable: `create_session` on a falsy pointer sets it

/-- `MemoryManager.clear_current_session` (`memory_manager.py`, lines
338-343): clears the current session's ledger if there is one, returning the
cleared count. -/
def MemoryManager.clear_current_session (m : MemoryManager) (now : String) :
    MemoryManager × Nat :=
  match m.get_current_session with
  | some s =>
      match m.current_session_id with
      | some cid =>
          ({ m with sessions := (updateS m.sessions cid
              (fun t => (t.clear_messages now).1)) }, s.messages.length)
      | none => (m, 0)   -- unreachable: `get_current_session` needs a pointer
  | none => (m, 0)

/-- The target resolution of `MemoryManager.optimize_memory`
(`memory_manager.py`, line 347): Python `session_id or
self.current_session_id` falls through to the pointer when the argument is
`None` or empty. -/
def optimizeTarget (m : MemoryManager) (session_id : Option String) :
    Option String :=
  match session_id with
  | some sid => if sid = "" then m.current_session_id else some sid
  | none => m.current_session_id

/-- `MemoryManager.optimize_memory` (`memory_manager.py`, lines 345-351 and
398-407): resolve the target, report an error for a falsy or unknown target,
otherwise run the memory-bounding policy on the target session; `L` is the
configured `MAX_MEMORY_MESSAGES` ceiling. -/
def MemoryManager.optimize_memory (m : MemoryManager) (L : Nat)
    (session_id : Option String) : MemoryManager × OptimizeResult :=
  match optimizeTarget m session_id with
  | none => (m, .error "Session not found")
  | some tid =>
      if tid = "" then (m, .error "Session not found")
      else match m.find tid with
        | none => (m, .error "Session not found")
        | some s =>
            let r := optimizeSession L s
            ({ m with sessions := updateS m.sessions tid (fun _ => r.1) }, r.2)

/-- Mirror of the `BackupMetadata` dataclass (`persistence.py`, lines 18-28). -/
structure BackupMetadata where
  version : String
  created_at : String
  session_count : Nat
  total_messages : Nat
  total_tokens : Nat
  backup_type : String
  compression : Bool
  checksum : String
deriving Repr, DecidableEq, Inhabited

/-- The top-level backup document built by
`SessionPersistence._prepare_backup_data` (`persistence.py`, lines 180-186). -/
structure BackupData where
  metadata : BackupMetadata
  current_session_id : Option String
  sessions : List (String × SessionExport)
  format_version : String
  created_by : String
deriving Repr, DecidableEq, Inhabited

/-- `SessionPersistence._prepare_backup_data` (`persistence.py`, lines
157-193): export every session, aggregate counts, build the metadata with a
blank checksum, then compute the checksum of the serialized document and
write it back into the metadata.  `chk` stands for
`sha256(json.dumps(·, sort_keys=True))`, an arbitrary function of the
document's content. -/
def prepare_backup_data (m : MemoryManager) (now : String) (compression : Bool)
    (chk : BackupData → String) : BackupData :=
  let sessions_data := m.sessions.map (fun p => (p.1, p.2.export_data))
  let total_messages := (m.sessions.map (fun p => p.2.messages.length)).sum
  let total_tokens := (m.sessions.map (fun p => p.2.metadata.total_tokens)).sum
  let md : BackupMetadata :=
    { version := "1.0"
      created_at := now
      session_count := m.sessions.length
      total_messages := total_messages
      total_tokens := total_tokens
      backup_type := "full"
      compression := compression
      checksum := "" }
  let bd : BackupData :=
    { metadata := md
      current_session_id := m.current_session_id
      sessions := sessions_data
      format_version := "1.0"
      created_by := "Claude Chat Client" }
  { bd with metadata := { bd.metadata with checksum := chk bd } }

/-- Result of `SessionPersistence._read_backup_file` (`persistence.py`, lines
208-235): the parsed document (with its stored checksum restored after
verification) and whether the checksum-mismatch warning was logged. -/
structure ReadResult where
  data : BackupData
  integrity_warning : Bool
deriving Repr, DecidableEq

/-- `SessionPersistence._read_backup_file` (`persistence.py`, lines 208-235),
after JSON parsing: blank the stored checksum, recompute over the blanked
document, log a warning on mismatch (recorded in `integrity_warning`),
restore the stored checksum, and return the document — mismatch or not. -/
def readBackupData (chk : BackupData → String) (bd : BackupData) : ReadResult :=
  let stored := bd.metadata.checksum
  let blanked := { bd with metadata := { bd.metadata with checksum := "" } }
  let calculated := chk blanked
  { data := { blanked with metadata := { blanked.metadata with checksum := stored } }
    integrity_warning := decide (stored ≠ calculated) }

/-- `SessionPersistence._restore_sessions_from_data` (`persistence.py`, lines
264-274): rebuild every session from its exported form and return them with
the snapshot's current-session identifier. -/
def restore_sessions_from_data (bd : BackupData) (now model : String) :
    SessionDict × Option String :=
  (bd.sessions.map (fun p => (p.1, ConversationSession.from_export_data p.2 now model)),
   bd.current_session_id)

/-- `SessionPersistence.load_sessions` on a parsed document (`persistence.py`,
lines 64-77): read (with checksum verification) and restore.  Also records
whether the integrity warning fired. -/
def load_backup (chk : BackupData → String) (bd : BackupData)
    (now model : String) : (SessionDict × Option String) × Bool :=
  let r := readBackupData chk bd
  (restore_sessions_from_data r.data now model, r.integrity_warning)

/-- One entry of the backup directory as surfaced by
`SessionPersistence.list_backups` (`persistence.py`, lines 79-103).  Creation
timestamps are ISO-8601 strings whose lexicographic order is chronological;
they are modelled as naturals carrying that order. -/
structure BackupFileInfo where
  filename : String
  created_at : Nat
deriving Repr, DecidableEq, Inhabited

/-- `SessionPersistence.list_backups` (`persistence.py`, lines 79-103): the
backup files sorted by creation time, newest first (`sort(key=...,
reverse=True)`). -/
def list_backups (files : List BackupFileInfo) : List BackupFileInfo :=
  List.insertionSort (fun a b => b.created_at ≤ a.created_at) files

/-- `SessionPersistence.cleanup_old_backups` (`persistence.py`, lines
119-135): nothing to do when at most `max_backups` backups exist; otherwise
delete every backup beyond the `max_backups` most recent and return the
remaining directory contents together with the number of deletions (file
deletion is modelled as always succeeding). -/
def cleanup_old_backups (files : List BackupFileInfo) (max_backups : Nat) :
    List BackupFileInfo × Nat :=
  let backups := list_backups files
  if backups.length ≤ max_backups then (files, 0)
  else
    let backups_to_delete := backups.drop max_backups
    (files.filter (fun f => f ∉ backups_to_delete), backups_to_delete.length)

/-- The store states reachable from a fresh `MemoryManager` by the
operations named in the specification's invariants: `create_session`,
`switch_session`, `delete_session`, `add_message`,
`clear_current_session` and `optimize_memory`.  UUIDs drawn by
`create_session` (directly or inside `add_message`) are fresh and
nonempty. -/
inductive Reach : MemoryManager → Prop where
  | init : Reach MemoryManager.init0
  | create {m : MemoryManager} (h : Reach m) (id : String)
      (name model : Option String) (now cfgModel : String)
      (hid : id ≠ "") (hfresh : m.find id = none) :
      Reach (m.create_session id name model now cfgModel).1
  | switch {m : MemoryManager} (h : Reach m) (id : String) :
      Reach (m.switch_session id).1
  | delete {m : MemoryManager} (h : Reach m) (id : String) :
      Reach (m.delete_session id).1
  | addMsg {m : MemoryManager} (h : Reach m) (role content : String)
      (tokens : Nat) (md : List (String × MetaValue))
      (now cfgModel freshId : String)
      (hid : freshId ≠ "") (hfresh : m.find freshId = none) :
      Reach (m.add_message role content tokens md now cfgModel freshId).1
  | clear {m : MemoryManager} (h : Reach m) (now : String) :
      Reach (m.clear_current_session now).1
  | optimize {m : MemoryManager} (h : Reach m) (L : Nat) (sid : Option String) :
      Reach (m.optimize_memory L sid).1

/-- The derived-cache invariant of one session: `message_count` and
`total_tokens` agree with the ledger. -/
def sessionInv (s : ConversationSession) : Prop :=
  s.metadata.message_count = s.messages.length ∧
  s.metadata.total_tokens = (s.messages.map MessageData.tokens).sum

/-- The store-wide invariant: session keys are unique and nonempty, a `none`
pointer means an empty store, a set pointer names a present nonempty key,
active sessions are exactly pointed at by the pointer, and every session
satisfies the derived-cache invariant. -/
def storeInv (m : MemoryManager) : Prop :=
  (m.sessions.map Prod.fst).Nodup ∧
  (∀ p ∈ m.sessions, p.1 ≠ "") ∧
  (m.current_session_id = none → m.sessions = []) ∧
  (∀ cid, m.current_session_id = some cid → cid ≠ "" ∧ (m.find cid).isSome) ∧
  (∀ p ∈ m.sessions, p.2.metadata.is_active = true → m.current_session_id = some p.1) ∧
  (∀ p ∈ m.sessions, sessionInv p.2)

theorem lookupS_eq_none_iff {l : SessionDict} {k : String} :
    lookupS l k = none ↔ ∀ p ∈ l, p.1 ≠ k := by
  induction l with
  | nil => simp [lookupS]
  | cons p rest ih =>
      by_cases h : p.1 = k
      · simp [lookupS, h]
      · simp only [lookupS, if_neg h, List.mem_cons]
        constructor
        · intro hl q hq
          rcases hq with rfl | hq
          · exact h
          · exact ih.mp hl q hq
        · intro hall
          exact ih.mpr (fun q hq => hall q (Or.inr hq))

theorem lookupS_isSome_of_mem {l : SessionDict} {p : String × ConversationSession}
    (hp : p ∈ l) : (lookupS l p.1).isSome := by
  induction l with
  | nil => simp at hp
  | cons q rest ih =>
      rcases List.mem_cons.mp hp with rfl | hp
      · simp [lookupS]
      · by_cases h : q.1 = p.1
        · simp [lookupS, h]
        · simpa [lookupS, h] using ih hp

theorem mem_of_lookupS_eq_some {l : SessionDict} {k : String}
    {s : ConversationSession} (h : lookupS l k = some s) : (k, s) ∈ l := by
  induction l with
  | nil => simp [lookupS] at h
  | cons q rest ih =>
      by_cases hq : q.1 = k
      · simp only [lookupS, if_pos hq, Option.some.injEq] at h
        subst hq
        subst h
        exact List.mem_cons_self q rest
      · simp only [lookupS, if_neg hq] at h
        exact List.mem_cons_of_mem _ (ih h)

theorem dictSet_of_fresh {l : SessionDict} {k : String}
    (h : lookupS l k = none) (v : ConversationSession) :
    dictSet l k v = l ++ [(k, v)] := by
  induction l with
  | nil => simp [dictSet]
  | cons p rest ih =>
      by_cases hp : p.1 = k
      · simp [lookupS, hp] at h
      · simp only [lookupS, if_neg hp] at h
        simp [dictSet, hp, ih h]

theorem lookupS_append_right {l : SessionDict} {k : String}
    (h : lookupS l k = none) (tail : SessionDict) :
    lookupS (l ++ tail) k = lookupS tail k := by
  induction l with
  | nil => simp
  | cons p rest ih =>
      by_cases hp : p.1 = k
      · simp [lookupS, hp] at h
      · simp only [lookupS, if_neg hp] at h ⊢
        exact ih h

theorem lookupS_append_left {l : SessionDict} {k : String}
    (h : lookupS l k ≠ none) (tail : SessionDict) :
    lookupS (l ++ tail) k = lookupS l k := by
  induction l with
  | nil => simp [lookupS] at h
  | cons p rest ih =>
      by_cases hp : p.1 = k
      · simp [lookupS, hp]
      · simp only [lookupS, if_neg hp] at h ⊢
        exact ih h

theorem keys_updateS (l : SessionDict) (k : String)
    (f : ConversationSession → ConversationSession) :
    (updateS l k f).map Prod.fst = l.map Prod.fst := by
  induction l with
  | nil => rfl
  | cons p rest ih =>
      by_cases hp : p.1 = k <;> simp [updateS, hp, ih]

theorem lookupS_updateS_self (l : SessionDict) (k : String)
    (f : ConversationSession → ConversationSession) :
    lookupS (updateS l k f) k = (lookupS l k).map f := by
  induction l with
  | nil => rfl
  | cons p rest ih =>
      by_cases hp : p.1 = k
      · simp [updateS, lookupS, hp]
      · simp [updateS, lookupS, hp, ih]

theorem lookupS_updateS_ne (l : SessionDict) {k k' : String}
    (h : k' ≠ k) (f : ConversationSession → ConversationSession) :
    lookupS (updateS l k f) k' = lookupS l k' := by
  induction l with
  | nil => rfl
  | cons p rest ih =>
      have hkk : k ≠ k' := fun he => h he.symm
      by_cases hp : p.1 = k
      · have hpk : p.1 ≠ k' := by
          rw [hp]
          exact hkk
        simp [updateS, lookupS, hp, hpk, hkk, ih]
      · by_cases hpk : p.1 = k'
        · simp [updateS, lookupS, hp, hpk, h, ih]
        · simp [updateS, lookupS, hp, hpk, ih]

theorem mem_updateS {l : SessionDict} {k : String}
    {f : ConversationSession → ConversationSession}
    {p : String × ConversationSession} (hp : p ∈ updateS l k f) :
    ∃ q ∈ l, p.1 = q.1 ∧ ((q.1 ≠ k ∧ p = q) ∨ (q.1 = k ∧ p.2 = f q.2)) := by
  induction l with
  | nil => simp [updateS] at hp
  | cons q rest ih =>
      by_cases hq : q.1 = k
      · simp only [updateS, if_pos hq, List.mem_cons] at hp
        rcases hp with rfl | hp
        · exact ⟨q, List.mem_cons_self q rest, rfl, Or.inr ⟨hq, rfl⟩⟩
        · rcases ih hp with ⟨r, hr, h1, h2⟩
          exact ⟨r, List.mem_cons_of_mem _ hr, h1, h2⟩
      · simp only [updateS, if_neg hq, List.mem_cons] at hp
        rcases hp with rfl | hp
        · exact ⟨p, List.mem_cons_self p rest, rfl, Or.inl ⟨hq, rfl⟩⟩
        · rcases ih hp with ⟨r, hr, h1, h2⟩
          exact ⟨r, List.mem_cons_of_mem _ hr, h1, h2⟩

theorem forall_mem_updateS {P : String × ConversationSession → Prop}
    {l : SessionDict} {k : String}
    {f : ConversationSession → ConversationSession}
    (hl : ∀ p ∈ l, P p)
    (hf : ∀ p ∈ l, p.1 = k → P (p.1, f p.2)) :
    ∀ p ∈ updateS l k f, P p := by
  intro p hp
  rcases mem_updateS hp with ⟨q, hq, h1, ⟨_, h2⟩ | ⟨hk, h2⟩⟩
  · rw [h2]
    exact hl q hq
  · have hpe : p = (q.1, f q.2) := by
      cases p
      simp_all
    rw [hpe]
    exact hf q hq hk

theorem lookupS_isSome_iff {l : SessionDict} {k : String} :
    (lookupS l k).isSome = true ↔ k ∈ l.map Prod.fst := by
  induction l with
  | nil => simp [lookupS]
  | cons p rest ih =>
      by_cases hp : p.1 = k
      · simp [lookupS, hp]
      · simp only [lookupS, if_neg hp, List.map_cons, List.mem_cons, ih]
        constructor
        · exact Or.inr
        · rintro (rfl | h)
          · exact absurd rfl hp
          · exact h

theorem keys_delKey (l : SessionDict) (k : String) :
    (delKey l k).map Prod.fst = (l.map Prod.fst).filter (fun s => s ≠ k) := by
  induction l with
  | nil => rfl
  | cons p rest ih =>
      by_cases hp : p.1 = k <;> simp [delKey, hp, ih, List.filter_cons]

theorem mem_delKey {l : SessionDict} {k : String}
    {p : String × ConversationSession} :
    p ∈ delKey l k ↔ p ∈ l ∧ p.1 ≠ k := by
  induction l with
  | nil => simp [delKey]
  | cons q rest ih =>
      by_cases hq : q.1 = k
      · simp only [delKey, if_pos hq, List.mem_cons, ih]
        constructor
        · exact fun ⟨h1, h2⟩ => ⟨Or.inr h1, h2⟩
        · rintro ⟨rfl | h1, h2⟩
          · exact absurd hq h2
          · exact ⟨h1, h2⟩
      · simp only [delKey, if_neg hq, List.mem_cons, ih]
        constructor
        · rintro (rfl | ⟨h1, h2⟩)
          · exact ⟨Or.inl rfl, hq⟩
          · exact ⟨Or.inr h1, h2⟩
        · rintro ⟨rfl | h1, h2⟩
          · exact Or.inl rfl
          · exact Or.inr ⟨h1, h2⟩

theorem lookupS_delKey_ne (l : SessionDict) {k k' : String} (h : k' ≠ k) :
    lookupS (delKey l k) k' = lookupS l k' := by
  induction l with
  | nil => rfl
  | cons p rest ih =>
      have hkk : k ≠ k' := fun he => h he.symm
      by_cases hp : p.1 = k
      · have hpk : p.1 ≠ k' := by
          rw [hp]
          exact hkk
        simp [delKey, lookupS, hp, hpk, hkk, ih]
      · by_cases hpk : p.1 = k'
        · simp [delKey, lookupS, hp, hpk, h, ih]
        · simp [delKey, lookupS, hp, hpk, ih]

example : lookupS [("a", default), ("b", default)] "b" = some default := by decide
example : dictSet [("a", default)] "b" default = [("a", default), ("b", default)] := by decide

theorem newSessionFor_sessionInv (m : MemoryManager) (id : String)
    (name model : Option String) (now cfg : String) :
    sessionInv (newSessionFor m id name model now cfg) := by
  unfold newSessionFor sessionInv ConversationSession.init
  rcases name with _ | n <;> rcases model with _ | mo
  · split_ifs <;> simp
  · by_cases hmo : mo = "" <;> split_ifs <;> simp [hmo]
  · by_cases hn : n = "" <;> split_ifs <;> simp [hn]
  · by_cases hn : n = "" <;> by_cases hmo : mo = "" <;> split_ifs <;> simp [hn, hmo]

theorem newSessionFor_messages (m : MemoryManager) (id : String)
    (name model : Option String) (now cfg : String) :
    (newSessionFor m id name model now cfg).messages = [] := by
  unfold newSessionFor ConversationSession.init
  rcases name with _ | n <;> rcases model with _ | mo
  · split_ifs <;> simp
  · by_cases hmo : mo = "" <;> split_ifs <;> simp [hmo]
  · by_cases hn : n = "" <;> split_ifs <;> simp [hn]
  · by_cases hn : n = "" <;> by_cases hmo : mo = "" <;> split_ifs <;> simp [hn, hmo]

theorem newSessionFor_active (m : MemoryManager) (id : String)
    (name model : Option String) (now cfg : String) :
    (newSessionFor m id name model now cfg).metadata.is_active
      = pyFalsy m.current_session_id := by
  unfold newSessionFor ConversationSession.init
  rcases name with _ | n <;> rcases model with _ | mo
  · split_ifs <;> simp_all
  · by_cases hmo : mo = "" <;> split_ifs <;> simp_all [hmo]
  · by_cases hn : n = "" <;> split_ifs <;> simp_all [hn]
  · by_cases hn : n = "" <;> by_cases hmo : mo = "" <;> split_ifs <;> simp_all [hn, hmo]

theorem storeInv_create_aux (m : MemoryManager) (hm : storeInv m) (id : String)
    (hid : id ≠ "") (hfresh : m.find id = none) (s : ConversationSession)
    (hs : sessionInv s)
    (hact : s.metadata.is_active = pyFalsy m.current_session_id) :
    storeInv
      { sessions := dictSet m.sessions id s
        current_session_id :=
          if pyFalsy m.current_session_id then some id
          else m.current_session_id } := by
  obtain ⟨h1, h2, h3, h4, h5, h6⟩ := hm
  have hset : dictSet m.sessions id s = m.sessions ++ [(id, s)] :=
    dictSet_of_fresh hfresh s
  have hid_not : ∀ p ∈ m.sessions, p.1 ≠ id := lookupS_eq_none_iff.mp hfresh
  have hid_keys : id ∉ m.sessions.map Prod.fst := by
    intro hmem
    rcases List.mem_map.mp hmem with ⟨p, hp, hpe⟩
    exact hid_not p hp hpe
  by_cases hfirst : pyFalsy m.current_session_id = true
  · have hcurnone : m.current_session_id = none := by
      cases hcur : m.current_session_id with
      | none => rfl
      | some cid =>
          have hne := (h4 cid hcur).1
          rw [hcur] at hfirst
          simp only [pyFalsy, decide_eq_true_eq] at hfirst
          exact absurd hfirst hne
    have hemp : m.sessions = [] := h3 hcurnone
    have hone : dictSet m.sessions id s = [(id, s)] := by
      rw [hemp]
      rfl
    refine ⟨?_, ?_, ?_, ?_, ?_, ?_⟩
    · simp [hone]
    · intro p hp
      simp only [hone, List.mem_singleton] at hp
      subst hp
      exact hid
    · intro hc
      simp [hfirst] at hc
    · intro cid hc
      simp only [hfirst, if_true, Option.some.injEq] at hc
      subst hc
      refine ⟨hid, ?_⟩
      simp [MemoryManager.find, hone, lookupS]
    · intro p hp _
      simp only [hone, List.mem_singleton] at hp
      subst hp
      simp [hfirst]
    · intro p hp
      simp only [hone, List.mem_singleton] at hp
      subst hp
      exact hs
  · have hfirst' : pyFalsy m.current_session_id = false := by
      simpa using hfirst
    obtain ⟨cid, hcur⟩ : ∃ cid, m.current_session_id = some cid := by
      cases hcur : m.current_session_id with
      | none => rw [hcur] at hfirst'; simp [pyFalsy] at hfirst'
      | some cid => exact ⟨cid, rfl⟩
    refine ⟨?_, ?_, ?_, ?_, ?_, ?_⟩
    · simp only [hset, List.map_append, List.map_cons, List.map_nil]
      rw [List.nodup_append]
      exact ⟨h1, List.nodup_singleton id, by
        intro a ha hb
        simp only [List.mem_singleton] at hb
        subst hb
        exact hid_keys ha⟩
    · intro p hp
      simp only [hset, List.mem_append, List.mem_singleton] at hp
      rcases hp with hp | hp
      · exact h2 p hp
      · subst hp
        exact hid
    · intro hc
      simp only [hfirst'] at hc
      simp only [Bool.false_eq_true, if_false] at hc
      rw [hcur] at hc
      cases hc
    · intro cid' hc
      simp only [hfirst', Bool.false_eq_true, if_false] at hc
      obtain ⟨hne, hsome⟩ := h4 cid' hc
      refine ⟨hne, ?_⟩
      have hnn : m.find cid' ≠ none := by
        intro hx
        rw [hx] at hsome
        simp at hsome
      simp only [MemoryManager.find, hset]
      rw [lookupS_append_left hnn]
      exact hsome
    · intro p hp hpact
      simp only [hset, List.mem_append, List.mem_singleton] at hp
      simp only [hfirst', Bool.false_eq_true, if_false]
      rcases hp with hp | hp
      · exact h5 p hp hpact
      · subst hp
        rw [hact, hfirst'] at hpact
        cases hpact
    · intro p hp
      simp only [hset, List.mem_append, List.mem_singleton] at hp
      rcases hp with hp | hp
      · exact h6 p hp
      · subst hp
        exact hs

theorem storeInv_create (m : MemoryManager) (hm : storeInv m) (id : String)
    (name model : Option String) (now cfg : String)
    (hid : id ≠ "") (hfresh : m.find id = none) :
    storeInv (m.create_session id name model now cfg).1 :=
  storeInv_create_aux m hm id hid hfresh _
    (newSessionFor_sessionInv m id name model now cfg)
    (newSessionFor_active m id name model now cfg)

theorem sessionInv_set_active {s : ConversationSession} (hs : sessionInv s)
    (b : Bool) :
    sessionInv { s with metadata := { s.metadata with is_active := b } } := by
  simpa [sessionInv] using hs

theorem keys_deactivateCurrent (m : MemoryManager) :
    (deactivateCurrent m).map Prod.fst = m.sessions.map Prod.fst := by
  unfold deactivateCurrent
  cases m.current_session_id with
  | none => rfl
  | some cid =>
      by_cases hc : cid = ""
      · simp [hc]
      · simp [hc, keys_updateS]

theorem mem_deactivateCurrent {m : MemoryManager}
    {p : String × ConversationSession} (hp : p ∈ deactivateCurrent m) :
    ∃ q ∈ m.sessions, p.1 = q.1 ∧
      (p = q ∨ p.2 = { q.2 with metadata := { q.2.metadata with is_active := false } }) := by
  revert hp
  unfold deactivateCurrent
  cases m.current_session_id with
  | none => exact fun hp => ⟨p, hp, rfl, Or.inl rfl⟩
  | some cid =>
      by_cases hc : cid = ""
      · simp only [hc, if_true]
        exact fun hp => ⟨p, hp, rfl, Or.inl rfl⟩
      · simp only [hc, if_false]
        intro hp
        rcases mem_updateS hp with ⟨q, hq, he, ⟨_, h2'⟩ | ⟨_, h2'⟩⟩
        · exact ⟨q, hq, he, Or.inl h2'⟩
        · refine ⟨q, hq, he, Or.inr ?_⟩
          cases p
          simp_all

theorem deactivateCurrent_of_cur {m : MemoryManager} {cid : String}
    (hcur : m.current_session_id = some cid) (hne : cid ≠ "") :
    deactivateCurrent m = updateS m.sessions cid
      (fun s => { s with metadata := { s.metadata with is_active := false } }) := by
  unfold deactivateCurrent
  rw [hcur]
  simp [hne]

theorem storeInv_switch (m : MemoryManager) (hm : storeInv m) (id : String) :
    storeInv (m.switch_session id).1 := by
  obtain ⟨h1, h2, h3, h4, h5, h6⟩ := hm
  cases hx : m.find id with
  | none =>
      simp only [MemoryManager.switch_session, hx, Option.isNone_none, if_true]
      exact ⟨h1, h2, h3, h4, h5, h6⟩
  | some s0 =>
      have hidkeys : id ∈ m.sessions.map Prod.fst := by
        rw [← lookupS_isSome_iff]
        show (m.find id).isSome = true
        rw [hx]
        rfl
      have hidne : id ≠ "" := by
        rcases List.mem_map.mp hidkeys with ⟨p, hp, hpe⟩
        rw [← hpe]
        exact h2 p hp
      have hdinv : ∀ p ∈ deactivateCurrent m, sessionInv p.2 := by
        intro p hp
        rcases mem_deactivateCurrent hp with ⟨q, hq, _, hcase⟩
        rcases hcase with hqr | hfl
        · rw [hqr]
          exact h6 q hq
        · rw [hfl]
          exact sessionInv_set_active (h6 q hq) false
      simp only [MemoryManager.switch_session, hx, Option.isNone_some,
        Bool.false_eq_true, if_false]
      refine ⟨?_, ?_, ?_, ?_, ?_, ?_⟩
      · show (List.map Prod.fst (updateS (deactivateCurrent m) id _)).Nodup
        rw [keys_updateS, keys_deactivateCurrent]
        exact h1
      · intro p hp
        rcases mem_updateS hp with ⟨q, hq, he, _⟩
        rcases mem_deactivateCurrent hq with ⟨r, hr, he', _⟩
        rw [he, he']
        exact h2 r hr
      · intro hc
        simp at hc
      · intro cid hc
        simp only [Option.some.injEq] at hc
        subst hc
        refine ⟨hidne, ?_⟩
        show (lookupS _ _).isSome = true
        rw [lookupS_isSome_iff, keys_updateS, keys_deactivateCurrent]
        exact hidkeys
      · intro p hp hact
        rcases mem_updateS hp with ⟨q, hq, he, ⟨hqk, hpq⟩ | ⟨hqk, _⟩⟩
        · -- entry untouched by the activation update: it cannot be active
          exfalso
          rcases mem_deactivateCurrent hq with ⟨r, hr, he', hcase⟩
          rcases hcase with hqr | hfl
          · -- entry straight from the store: it was active, so it was the
            -- old current session and got deactivated
            have hact' : r.2.metadata.is_active = true := by
              rw [← hqr, ← hpq]
              exact hact
            have hcur := h5 r hr hact'
            have hrne : r.1 ≠ "" := (h4 r.1 hcur).1
            rw [deactivateCurrent_of_cur hcur hrne] at hq
            rcases mem_updateS hq with ⟨t, _, he2, ⟨htk, _⟩ | ⟨_, h2'⟩⟩
            · -- untouched entries do not have the current key, but q does
              apply htk
              rw [← he2, hqr]
            · -- the current entry was deactivated
              rw [hpq, h2'] at hact
              simp at hact
          · rw [hpq, hfl] at hact
            simp at hact
        · show some id = some p.1
          rw [he, hqk]
      · exact forall_mem_updateS hdinv
          (fun p hp _ => sessionInv_set_active (hdinv p hp) true)

theorem storeInv_updateS_generic (m1 : MemoryManager) (hm1 : storeInv m1)
    (k : String) (f : ConversationSession → ConversationSession)
    (hf_inv : ∀ s, sessionInv s → sessionInv (f s))
    (hf_act : ∀ p ∈ m1.sessions, p.1 = k →
      (f p.2).metadata.is_active = true → p.2.metadata.is_active = true) :
    storeInv { m1 with sessions := updateS m1.sessions k f } := by
  obtain ⟨h1, h2, h3, h4, h5, h6⟩ := hm1
  refine ⟨?_, ?_, ?_, ?_, ?_, ?_⟩
  · show (List.map Prod.fst (updateS m1.sessions k f)).Nodup
    rw [keys_updateS]
    exact h1
  · intro p hp
    rcases mem_updateS hp with ⟨q, hq, he, _⟩
    rw [he]
    exact h2 q hq
  · intro hc
    show updateS m1.sessions k f = []
    rw [h3 hc]
    rfl
  · intro cid hc
    obtain ⟨hne, hsome⟩ := h4 cid hc
    refine ⟨hne, ?_⟩
    show (lookupS (updateS m1.sessions k f) cid).isSome = true
    rw [lookupS_isSome_iff, keys_updateS]
    exact lookupS_isSome_iff.mp hsome
  · exact forall_mem_updateS h5
      (fun p hp hpk hact => h5 p hp (hf_act p hp hpk hact))
  · exact forall_mem_updateS h6 (fun p hp _ => hf_inv p.2 (h6 p hp))

theorem storeInv_updateS_pointed (m1 : MemoryManager) (hm1 : storeInv m1)
    (k : String) (f : ConversationSession → ConversationSession)
    (hf_inv : ∀ s, sessionInv s → sessionInv (f s))
    (hf_act : ∀ p ∈ m1.sessions, p.1 = k →
      (f p.2).metadata.is_active = true → p.2.metadata.is_active = true)
    (cur : Option String) (hc : cur = m1.current_session_id) :
    storeInv { sessions := updateS m1.sessions k f, current_session_id := cur } := by
  rw [hc]
  exact storeInv_updateS_generic m1 hm1 k f hf_inv hf_act

theorem delKey_eq_nil_of_all {l : SessionDict} {k : String}
    (h : ∀ p ∈ l, p.1 = k) : delKey l k = [] := by
  induction l with
  | nil => rfl
  | cons p rest ih =>
      have hp : p.1 = k := h p (List.mem_cons_self p rest)
      simp only [delKey, if_pos hp]
      exact ih (fun q hq => h q (List.mem_cons_of_mem _ hq))

theorem storeInv_delKey_of_cur_ne (m1 : MemoryManager) (hm1 : storeInv m1)
    (id : String) (hcur : m1.current_session_id ≠ some id) :
    storeInv { m1 with sessions := delKey m1.sessions id } := by
  obtain ⟨h1, h2, h3, h4, h5, h6⟩ := hm1
  refine ⟨?_, ?_, ?_, ?_, ?_, ?_⟩
  · show (List.map Prod.fst (delKey m1.sessions id)).Nodup
    rw [keys_delKey]
    exact h1.filter _
  · intro p hp
    exact h2 p (mem_delKey.mp hp).1
  · intro hc
    show delKey m1.sessions id = []
    rw [h3 hc]
    rfl
  · intro cid hc
    obtain ⟨hne, hsome⟩ := h4 cid hc
    have hcidid : cid ≠ id := fun he => hcur (he ▸ hc)
    refine ⟨hne, ?_⟩
    show (lookupS (delKey m1.sessions id) cid).isSome = true
    rw [lookupS_delKey_ne _ hcidid]
    exact hsome
  · intro p hp hact
    exact h5 p (mem_delKey.mp hp).1 hact
  · intro p hp
    exact h6 p (mem_delKey.mp hp).1

theorem storeInv_delete (m : MemoryManager) (hm : storeInv m) (id : String) :
    storeInv (m.delete_session id).1 := by
  obtain ⟨h1, h2, h3, h4, h5, h6⟩ := hm
  have hminv : storeInv m := ⟨h1, h2, h3, h4, h5, h6⟩
  cases hx : m.find id with
  | none =>
      simp only [MemoryManager.delete_session, hx, Option.isNone_none, if_true]
      exact hminv
  | some s0 =>
      simp only [MemoryManager.delete_session, hx, Option.isNone_some,
        Bool.false_eq_true, if_false]
      by_cases hc : m.current_session_id = some id
      · rw [if_pos hc]
        cases hrem : (m.sessions.map Prod.fst).filter (fun sid => sid ≠ id) with
        | nil =>
            have hall : ∀ p ∈ m.sessions, p.1 = id := by
              intro p hp
              by_contra hne
              have hmemf : p.1 ∈ (m.sessions.map Prod.fst).filter
                  (fun sid => sid ≠ id) := by
                rw [List.mem_filter]
                exact ⟨List.mem_map_of_mem Prod.fst hp, by simpa using hne⟩
              rw [hrem] at hmemf
              simp at hmemf
            have hdel : delKey m.sessions id = [] := delKey_eq_nil_of_all hall
            refine ⟨?_, ?_, ?_, ?_, ?_, ?_⟩
            · show (List.map Prod.fst (delKey m.sessions id)).Nodup
              rw [hdel]
              exact List.nodup_nil
            · intro p hp
              have hp' : p ∈ delKey m.sessions id := hp
              rw [hdel] at hp'
              simp at hp'
            · intro _
              show delKey m.sessions id = []
              exact hdel
            · intro cid hcc
              have hcc' : (none : Option String) = some cid := hcc
              simp at hcc'
            · intro p hp
              have hp' : p ∈ delKey m.sessions id := hp
              rw [hdel] at hp'
              simp at hp'
            · intro p hp
              have hp' : p ∈ delKey m.sessions id := hp
              rw [hdel] at hp'
              simp at hp'
        | cons r rest =>
            have hr : r ∈ (m.sessions.map Prod.fst).filter (fun sid => sid ≠ id) := by
              rw [hrem]
              exact List.mem_cons_self r rest
            obtain ⟨hrk, hrneb⟩ := List.mem_filter.mp hr
            have hrne : r ≠ id := by simpa using hrneb
            have hswinv := storeInv_switch m hminv r
            have hswcur : (m.switch_session r).1.current_session_id = some r := by
              have hsome : (m.find r).isSome = true := lookupS_isSome_iff.mpr hrk
              obtain ⟨sr, hsr⟩ := Option.isSome_iff_exists.mp hsome
              simp [MemoryManager.switch_session, hsr]
            exact storeInv_delKey_of_cur_ne _ hswinv id
              (by
                rw [hswcur]
                intro he
                exact hrne (Option.some.inj he))
      · rw [if_neg hc]
        exact storeInv_delKey_of_cur_ne m hminv id hc

theorem sessionInv_add {s : ConversationSession} (hs : sessionInv s)
    (role content : String) (tokens : Nat) (md : List (String × MetaValue))
    (now model : String) :
    sessionInv (s.add_message role content tokens md now model) := by
  obtain ⟨h1, h2⟩ := hs
  constructor
  · rfl
  · show s.metadata.total_tokens + tokens = _
    simp [ConversationSession.add_message, h2]

theorem add_message_active (s : ConversationSession) (role content : String)
    (tokens : Nat) (md : List (String × MetaValue)) (now model : String) :
    (s.add_message role content tokens md now model).metadata.is_active
      = s.metadata.is_active := rfl

theorem sessionInv_clear (s : ConversationSession) (now : String) :
    sessionInv (s.clear_messages now).1 := by
  simp [sessionInv, ConversationSession.clear_messages]

theorem optimizeSession_sessionInv {L : Nat} {s : ConversationSession}
    (hs : sessionInv s) : sessionInv (optimizeSession L s).1 := by
  unfold optimizeSession
  by_cases h1 : s.messages.length ≤ L
  · simpa [h1] using hs
  · by_cases h2 : (oldUnpinned L s).isEmpty
    · simpa [h1, h2] using hs
    · simp [h1, h2, sessionInv]

theorem optimizeSession_active (L : Nat) (s : ConversationSession) :
    (optimizeSession L s).1.metadata.is_active = s.metadata.is_active := by
  unfold optimizeSession
  by_cases h1 : s.messages.length ≤ L
  · simp [h1]
  · by_cases h2 : (oldUnpinned L s).isEmpty
    · simp [h1, h2]
    · simp [h1, h2]

theorem lookupS_eq_of_mem_nodup {l : SessionDict}
    (hnd : (l.map Prod.fst).Nodup) {p : String × ConversationSession}
    (hp : p ∈ l) : lookupS l p.1 = some p.2 := by
  induction l with
  | nil => simp at hp
  | cons q rest ih =>
      rw [List.map_cons] at hnd
      have hnd' := List.nodup_cons.mp hnd
      rcases List.mem_cons.mp hp with rfl | hp'
      · simp [lookupS]
      · have hq1 : q.1 ≠ p.1 := by
          intro he
          have hmem : p.1 ∈ rest.map Prod.fst := List.mem_map_of_mem _ hp'
          rw [← he] at hmem
          exact hnd'.1 hmem
        simpa [lookupS, hq1] using ih hnd'.2 hp'

theorem storeInv_addMsg (m : MemoryManager) (hm : storeInv m)
    (role content : String) (tokens : Nat) (md : List (String × MetaValue))
    (now cfg freshId : String) (hid : freshId ≠ "")
    (hfresh : m.find freshId = none) :
    storeInv (m.add_message role content tokens md now cfg freshId).1 := by
  obtain ⟨h1, h2, h3, h4, h5, h6⟩ := hm
  have hminv : storeInv m := ⟨h1, h2, h3, h4, h5, h6⟩
  by_cases hgc : (m.get_current_session).isNone = true
  · -- no current session: a default one is created first
    have hpf : pyFalsy m.current_session_id = true := by
      unfold MemoryManager.get_current_session at hgc
      cases hcur : m.current_session_id with
      | none => rfl
      | some cid =>
          rw [hcur] at hgc
          by_cases hce : cid = ""
          · simp [pyFalsy, hce]
          · exfalso
            simp only [hce, if_false] at hgc
            have := (h4 cid hcur).2
            cases hx : m.find cid with
            | none => rw [hx] at this; simp at this
            | some s => rw [hx] at hgc; simp at hgc
    have hm1 := storeInv_create m hminv freshId (some "Default") none now cfg
      hid hfresh
    have hcur1 : (m.create_session freshId (some "Default") none now cfg).1.current_session_id
        = some freshId := by
      simp [MemoryManager.create_session, hpf]
    simp only [MemoryManager.add_message, hgc, if_true]
    cases hX : (m.create_session freshId (some "Default") none now cfg).1.current_session_id with
    | none =>
        rw [hcur1] at hX
        cases hX
    | some c =>
        exact storeInv_updateS_pointed _ hm1 c _
          (fun s hs => sessionInv_add hs role content tokens md now cfg)
          (fun p _ _ hact => by rwa [add_message_active] at hact)
          (some c) hX.symm
  · -- a current session exists
    simp only [MemoryManager.add_message]
    rw [if_neg hgc]
    cases hX : m.current_session_id with
    | none =>
        exfalso
        apply hgc
        unfold MemoryManager.get_current_session
        rw [hX]
        rfl
    | some c =>
        exact storeInv_updateS_pointed m hminv c _
          (fun s hs => sessionInv_add hs role content tokens md now cfg)
          (fun p _ _ hact => by rwa [add_message_active] at hact)
          (some c) hX.symm

theorem storeInv_clearCur (m : MemoryManager) (hm : storeInv m) (now : String) :
    storeInv (m.clear_current_session now).1 := by
  cases hgc : m.get_current_session with
  | none =>
      simp only [MemoryManager.clear_current_session, hgc]
      exact hm
  | some s =>
      cases hcur : m.current_session_id with
      | none =>
          simp only [MemoryManager.clear_current_session, hgc, hcur]
          exact hm
      | some cid =>
          simp only [MemoryManager.clear_current_session, hgc, hcur]
          exact storeInv_updateS_pointed m hm cid _
            (fun t _ => sessionInv_clear t now)
            (fun p _ _ hact => hact)
            (some cid) hcur.symm

theorem storeInv_optimize (m : MemoryManager) (hm : storeInv m) (L : Nat)
    (sid : Option String) : storeInv (m.optimize_memory L sid).1 := by
  obtain ⟨h1, h2, h3, h4, h5, h6⟩ := hm
  have hminv : storeInv m := ⟨h1, h2, h3, h4, h5, h6⟩
  cases ht : optimizeTarget m sid with
  | none =>
      simp only [MemoryManager.optimize_memory, ht]
      exact hminv
  | some tid =>
      simp only [MemoryManager.optimize_memory, ht]
      by_cases hte : tid = ""
      · rw [if_pos hte]
        exact hminv
      · rw [if_neg hte]
        cases hf : m.find tid with
        | none => exact hminv
        | some s =>
            have hsinv : sessionInv s := h6 (tid, s) (mem_of_lookupS_eq_some hf)
            refine storeInv_updateS_generic m hminv tid _
              (fun s' _ => optimizeSession_sessionInv hsinv)
              (fun p hp hpk hact => ?_)
            -- by key uniqueness the touched entry is exactly `(tid, s)`
            have hps : p.2 = s := by
              have hl := lookupS_eq_of_mem_nodup h1 hp
              rw [hpk] at hl
              rw [show lookupS m.sessions tid = m.find tid from rfl, hf] at hl
              exact (Option.some.inj hl).symm
            rw [optimizeSession_active] at hact
            rw [hps]
            exact hact

theorem storeInv_reach (m : MemoryManager) (h : Reach m) : storeInv m := by
  induction h with
  | init =>
      refine ⟨List.nodup_nil, ?_, ?_, ?_, ?_, ?_⟩ <;>
        simp [MemoryManager.init0]
  | create h id name model now cfg hid hfresh ih =>
      exact storeInv_create _ ih id name model now cfg hid hfresh
  | switch h id ih => exact storeInv_switch _ ih id
  | delete h id ih => exact storeInv_delete _ ih id
  | addMsg h role content tokens md now cfg freshId hid hfresh ih =>
      exact storeInv_addMsg _ ih role content tokens md now cfg freshId hid hfresh
  | clear h now ih => exact storeInv_clearCur _ ih now
  | optimize h L sid ih => exact storeInv_optimize _ ih L sid

theorem length_le_one_of_nodup_all_eq {α : Type} {l : List α} (hnd : l.Nodup)
    (h : ∀ a ∈ l, ∀ b ∈ l, a = b) : l.length ≤ 1 := by
  cases l with
  | nil => simp
  | cons a t =>
      cases t with
      | nil => simp
      | cons b t2 =>
          exfalso
          have hab : a = b := h a (by simp) b (by simp)
          have := List.nodup_cons.mp hnd
          exact this.1 (hab ▸ List.mem_cons_self b t2)

/-- A two-operation concrete history used to witness the reachable-state
theorems: create a session, then append one 5-token message. -/
def mW1 : MemoryManager :=
  (MemoryManager.init0.create_session "sid-1" (some "First") none "t0" "model-a").1

def mW2 : MemoryManager :=
  (mW1.add_message "user" "hello" 5 [] "t1" "model-a" "sid-2").1

theorem reachW2 : Reach mW2 :=
  Reach.addMsg
    (Reach.create Reach.init "sid-1" (some "First") none "t0" "model-a"
      (by decide) (by decide))
    "user" "hello" 5 [] "t1" "model-a" "sid-2" (by decide) (by decide)

def sW2 : ConversationSession := (mW2.find "sid-1").getD default

/-- C1: for every session of a store reachable by `create_session`,
`switch_session`, `delete_session`, `add_message`, `clear_current_session`
and `optimize_memory`, the metadata caches agree with the ledger:
`message_count` equals the number of messages and `total_tokens` equals the
sum of the messages' token counts. -/
theorem c1_metadata_caches_match_ledger (m : MemoryManager) (h : Reach m) :
    ∀ p ∈ m.sessions, p.2.metadata.message_count = p.2.messages.length ∧
      p.2.metadata.total_tokens = (p.2.messages.map MessageData.tokens).sum :=
  fun p hp => (storeInv_reach m h).2.2.2.2.2 p hp

theorem c1_witness :
    sW2.metadata.message_count = sW2.messages.length ∧
      sW2.metadata.total_tokens = (sW2.messages.map MessageData.tokens).sum :=
  c1_metadata_caches_match_ledger mW2 reachW2 ("sid-1", sW2) (by decide)

/-- C6: in every reachable store, at most one session is marked active, and
the current-session pointer, when set, names a key present in the session
mapping. -/
theorem c6_exclusive_activation (m : MemoryManager) (h : Reach m) :
    (m.sessions.filter (fun p => p.2.metadata.is_active)).length ≤ 1 ∧
    (∀ cid, m.current_session_id = some cid → (m.find cid).isSome = true) := by
  obtain ⟨h1, _, _, h4, h5, _⟩ := storeInv_reach m h
  refine ⟨?_, fun cid hc => (h4 cid hc).2⟩
  have hsub : (m.sessions.filter (fun p => p.2.metadata.is_active)).Sublist
      m.sessions := List.filter_sublist _
  have hknd : ((m.sessions.filter (fun p => p.2.metadata.is_active)).map
      Prod.fst).Nodup := List.Nodup.sublist (hsub.map Prod.fst) h1
  have hall : ∀ k ∈ (m.sessions.filter (fun p => p.2.metadata.is_active)).map
      Prod.fst, m.current_session_id = some k := by
    intro k hk
    rcases List.mem_map.mp hk with ⟨p, hp, rfl⟩
    obtain ⟨hpm, hpa⟩ := List.mem_filter.mp hp
    exact h5 p hpm (by simpa using hpa)
  have hlen : ((m.sessions.filter (fun p => p.2.metadata.is_active)).map
      Prod.fst).length ≤ 1 :=
    length_le_one_of_nodup_all_eq hknd (by
      intro a ha b hb
      have := (hall a ha).symm.trans (hall b hb)
      exact Option.some.inj this)
  simpa using hlen

theorem c6_witness :
    (mW2.sessions.filter (fun p => p.2.metadata.is_active)).length ≤ 1 :=
  (c6_exclusive_activation mW2 reachW2).1

theorem lookupS_append_singleton_ne {l : SessionDict} {k id : String}
    (h : k ≠ id) (v : ConversationSession) :
    lookupS (l ++ [(id, v)]) k = lookupS l k := by
  have hik : ¬ id = k := fun he => h he.symm
  induction l with
  | nil => simp [lookupS, hik]
  | cons p rest ih =>
      by_cases hp : p.1 = k
      · simp [lookupS, hp]
      · simp only [List.cons_append, lookupS, if_neg hp]
        exact ih

/-- C8: on every reachable store, `create_session` with a fresh nonempty id
succeeds, returns that id, inserts a brand-new empty session under it without
touching the other entries, and marks it current and active exactly when the
store was empty; when other sessions already exist, the current pointer is
unchanged and the new session is inactive. -/
theorem c8_create_behaviour (m : MemoryManager) (h : Reach m) (id : String)
    (_hid : id ≠ "") (hfresh : m.find id = none)
    (name model : Option String) (now cfg : String) :
    (m.create_session id name model now cfg).2 = id ∧
    (m.create_session id name model now cfg).1.sessions.length
      = m.sessions.length + 1 ∧
    (∃ s, (m.create_session id name model now cfg).1.find id = some s ∧
      s.messages = [] ∧
      (s.metadata.is_active = true ↔ m.sessions = [])) ∧
    (∀ k, k ≠ id →
      (m.create_session id name model now cfg).1.find k = m.find k) ∧
    (m.sessions = [] →
      (m.create_session id name model now cfg).1.current_session_id = some id) ∧
    (m.sessions ≠ [] →
      (m.create_session id name model now cfg).1.current_session_id
        = m.current_session_id) := by
  obtain ⟨h1, h2, h3, h4, h5, h6⟩ := storeInv_reach m h
  have hset : dictSet m.sessions id (newSessionFor m id name model now cfg)
      = m.sessions ++ [(id, newSessionFor m id name model now cfg)] :=
    dictSet_of_fresh hfresh _
  have hiff : pyFalsy m.current_session_id = true ↔ m.sessions = [] := by
    constructor
    · intro hpf
      cases hcur : m.current_session_id with
      | none => exact h3 hcur
      | some cid =>
          exfalso
          rw [hcur] at hpf
          simp only [pyFalsy, decide_eq_true_eq] at hpf
          exact (h4 cid hcur).1 hpf
    · intro hemp
      cases hcur : m.current_session_id with
      | none => rfl
      | some cid =>
          exfalso
          have := (h4 cid hcur).2
          rw [show m.find cid = lookupS m.sessions cid from rfl, hemp] at this
          simp [lookupS] at this
  refine ⟨rfl, ?_, ?_, ?_, ?_, ?_⟩
  · show (dictSet m.sessions id _).length = m.sessions.length + 1
    rw [hset]
    simp
  · refine ⟨newSessionFor m id name model now cfg, ?_,
      newSessionFor_messages m id name model now cfg, ?_⟩
    · show lookupS (dictSet m.sessions id _) id = _
      rw [hset, lookupS_append_right hfresh]
      simp [lookupS]
    · rw [newSessionFor_active]
      exact hiff
  · intro k hk
    show lookupS (dictSet m.sessions id _) k = lookupS m.sessions k
    rw [hset, lookupS_append_singleton_ne hk]
  · intro hemp
    have hpf := hiff.mpr hemp
    show (if pyFalsy m.current_session_id = true then some id
      else m.current_session_id) = some id
    rw [if_pos hpf]
  · intro hne
    have hpf : pyFalsy m.current_session_id ≠ true := fun hpf => hne (hiff.mp hpf)
    show (if pyFalsy m.current_session_id = true then some id
      else m.current_session_id) = m.current_session_id
    rw [if_neg hpf]

theorem c8_witness :
    (mW2.create_session "sid-9" none none "t5" "model-a").2 = "sid-9" ∧
    (mW2.create_session "sid-9" none none "t5" "model-a").1.current_session_id
      = mW2.current_session_id := by
  have h := c8_create_behaviour mW2 reachW2 "sid-9" (by decide) (by decide)
    none none "t5" "model-a"
  exact ⟨h.1, h.2.2.2.2.2 (by decide)⟩

/-- C10: `pin_message` succeeds exactly on an in-range, not-yet-pinned index,
appending it to the pinned list, and otherwise reports failure leaving the
session untouched; `unpin_message` succeeds exactly on a currently pinned
index, removing it, and otherwise reports failure leaving the session
untouched.  The pinned list of any session built through `pin_message` has no
duplicates, which the removal clause uses. -/
theorem c10_pin_unpin (s : ConversationSession) (index : Int)
    (hnd : s.pinned_messages.Nodup) :
    ((0 ≤ index ∧ index < (s.messages.length : Int) ∧
        index ∉ s.pinned_messages) →
      s.pin_message index =
        (true, { s with pinned_messages := s.pinned_messages ++ [index] })) ∧
    ((¬(0 ≤ index ∧ index < (s.messages.length : Int)) ∨
        index ∈ s.pinned_messages) →
      s.pin_message index = (false, s)) ∧
    (index ∈ s.pinned_messages →
      s.unpin_message index =
        (true, { s with pinned_messages := s.pinned_messages.erase index }) ∧
      index ∉ (s.unpin_message index).2.pinned_messages ∧
      (s.unpin_message index).2.messages = s.messages) ∧
    (index ∉ s.pinned_messages → s.unpin_message index = (false, s)) := by
  refine ⟨?_, ?_, ?_, ?_⟩
  · rintro ⟨hge, hlt, hnm⟩
    simp [ConversationSession.pin_message, hge, hlt, hnm]
  · rintro (hrange | hmem)
    · have : ¬(0 ≤ index ∧ index < (s.messages.length : Int)) := hrange
      simp [ConversationSession.pin_message, this]
    · by_cases hrange : 0 ≤ index ∧ index < (s.messages.length : Int)
      · simp [ConversationSession.pin_message, hrange, hmem]
      · simp [ConversationSession.pin_message, hrange]
  · intro hmem
    refine ⟨by simp [ConversationSession.unpin_message, hmem], ?_, ?_⟩
    · simp only [ConversationSession.unpin_message, if_pos hmem]
      intro hmem'
      exact (List.Nodup.mem_erase_iff hnd).mp hmem' |>.1 rfl
    · simp [ConversationSession.unpin_message, hmem]
  · intro hmem
    simp [ConversationSession.unpin_message, hmem]

def sPinW : ConversationSession :=
  { ConversationSession.init "pw" none "t0" "mdl" with
    messages := [⟨"user", "a", "t1", 1, []⟩, ⟨"user", "b", "t2", 1, []⟩,
      ⟨"user", "c", "t3", 1, []⟩]
    pinned_messages := [0, 2] }

theorem c10_witness :
    (sPinW.pin_message 1).1 = true ∧ (sPinW.pin_message 5).1 = false ∧
    (sPinW.pin_message (-1)).1 = false ∧ (sPinW.unpin_message 2).1 = true ∧
    (2 : Int) ∉ (sPinW.unpin_message 2).2.pinned_messages ∧
    (sPinW.unpin_message 1).1 = false := by
  have h1 := c10_pin_unpin sPinW 1 (by decide)
  have h5 := c10_pin_unpin sPinW 5 (by decide)
  have hneg := c10_pin_unpin sPinW (-1) (by decide)
  have h2 := c10_pin_unpin sPinW 2 (by decide)
  refine ⟨?_, ?_, ?_, ?_, ?_, ?_⟩
  · rw [h1.1 ⟨by decide, by decide, by decide⟩]
  · rw [h5.2.1 (Or.inl (by decide))]
  · rw [hneg.2.1 (Or.inl (by decide))]
  · rw [(h2.2.2.1 (by decide)).1]
  · exact (h2.2.2.1 (by decide)).2.1
  · rw [h1.2.2.2 (by decide)]

/-- C2: decoding the encoded snapshot of any store reproduces, per session
and in order, the identical message list (content, role, token count,
timestamp) and pinned-position list, and reproduces the store's
current-session identifier. -/
theorem c2_roundtrip (m : MemoryManager) (now : String) (compression : Bool)
    (chk : BackupData → String) (now2 model2 : String) :
    (restore_sessions_from_data (prepare_backup_data m now compression chk)
        now2 model2).2 = m.current_session_id ∧
    (restore_sessions_from_data (prepare_backup_data m now compression chk)
        now2 model2).1.map
        (fun p => (p.1, p.2.messages, p.2.pinned_messages))
      = m.sessions.map (fun p => (p.1, p.2.messages, p.2.pinned_messages)) := by
  constructor
  · rfl
  · show (List.map _ (List.map _ (List.map _ m.sessions))) = _
    rw [List.map_map, List.map_map]
    rfl

/-- C7: decoding a parsed snapshot is lenient about integrity: the
checksum-mismatch warning fires exactly when the stored checksum differs from
the checksum recomputed over the checksum-blanked document, and the decoded
sessions and current-session identifier are returned in full either way. -/
theorem c7_lenient_checksum (chk : BackupData → String) (bd : BackupData)
    (now model : String) :
    (load_backup chk bd now model).1.2 = bd.current_session_id ∧
    (load_backup chk bd now model).1.1.map
        (fun p => (p.1, p.2.messages, p.2.pinned_messages))
      = bd.sessions.map (fun p => (p.1, p.2.messages, p.2.pinned_messages)) ∧
    ((load_backup chk bd now model).2 = true ↔
      bd.metadata.checksum
        ≠ chk { bd with metadata := { bd.metadata with checksum := "" } }) := by
  refine ⟨rfl, ?_, ?_⟩
  · show (List.map _ (List.map _ bd.sessions)) = _
    rw [List.map_map]
    rfl
  · show decide (¬ _ = _) = true ↔ _
    simp [readBackupData]

theorem optimizeSession_eq_of_rewrite {L : Nat} {s : ConversationSession}
    (h1 : L < s.messages.length) (h2 : oldUnpinned L s ≠ []) :
    optimizeSession L s =
      ({ s with
          messages := summaryMessage L s ::
            (rescuedPinned L s ++ pySliceLast s.messages (L / 2))
          metadata :=
            { s.metadata with
              message_count := (summaryMessage L s ::
                (rescuedPinned L s ++ pySliceLast s.messages (L / 2))).length
              total_tokens := ((summaryMessage L s ::
                (rescuedPinned L s ++ pySliceLast s.messages (L / 2))).map
                  MessageData.tokens).sum }
          pinned_messages := [] },
        .optimized s.messages.length
          (summaryMessage L s ::
            (rescuedPinned L s ++ pySliceLast s.messages (L / 2))).length
          (((oldUnpinned L s).map MessageData.tokens).sum
            - ((oldUnpinned L s).map MessageData.tokens).sum / 10) true) := by
  have hne : ¬ (s.messages.length ≤ L) := Nat.not_le.mpr h1
  have hempP : ¬ ((oldUnpinned L s).isEmpty = true) := by
    cases hx : oldUnpinned L s with
    | nil => exact absurd hx h2
    | cons a t => simp
  unfold optimizeSession
  rw [if_neg hne]
  show (if (oldUnpinned L s).isEmpty = true then _ else _) = _
  rw [if_neg hempP]

def msgC (i : Nat) : MessageData :=
  { role := "user", content := "c" ++ toString i, timestamp := "t" ++ toString i,
    tokens := i + 1, mdata := [] }

/-- A 3-message session whose whole old prefix (positions 0 and 1, with
ceiling 2) is pinned. -/
def sAllPinnedW : ConversationSession :=
  { ConversationSession.init "cx" none "t0" "mdl" with
    messages := [msgC 0, msgC 1, msgC 2]
    pinned_messages := [0, 1] }

/-- C3 counterexample: a session above the ceiling whose old-prefix messages
are all pinned.  `optimize_memory` finds no discardable message, returns
without rewriting, and the pinned-position set is NOT cleared. -/
theorem c3_counterexample :
    2 < sAllPinnedW.messages.length ∧
    (optimizeSession 2 sAllPinnedW).1.pinned_messages ≠ [] ∧
    (optimizeSession 2 sAllPinnedW).2
      = .notOptimized "No optimization possible" 3 := by
  refine ⟨by decide, by decide, by decide⟩

/-- C3 (amended): for a session above the ceiling, the pinned-position set is
cleared unconditionally whenever the rewrite actually happens, i.e. whenever
at least one old-prefix message is unpinned — even when rescued pinned
messages remain present in the new ledger; if every old-prefix message is
pinned, `optimize_memory` reports "No optimization possible" and leaves the
pinned set intact. -/
theorem c3_amended_pinned_cleared (L : Nat) (s : ConversationSession)
    (h1 : L < s.messages.length) (h2 : oldUnpinned L s ≠ []) :
    (optimizeSession L s).1.pinned_messages = [] := by
  rw [optimizeSession_eq_of_rewrite h1 h2]

/-- A 3-message session with only position 0 pinned: the rewrite runs, the
pinned message is rescued, and the pinned set is still cleared. -/
def sRescueW : ConversationSession :=
  { ConversationSession.init "cr" none "t0" "mdl" with
    messages := [msgC 0, msgC 1, msgC 2]
    pinned_messages := [0] }

theorem c3_witness :
    2 < sRescueW.messages.length ∧ oldUnpinned 2 sRescueW ≠ [] ∧
    (optimizeSession 2 sRescueW).1.pinned_messages = [] ∧
    msgC 0 ∈ (optimizeSession 2 sRescueW).1.messages :=
  ⟨by decide, by decide,
    c3_amended_pinned_cleared 2 sRescueW (by decide) (by decide), by decide⟩

/-- A 4-message session with positions pinned in the order [2, 0]. -/
def sOutOfOrderW : ConversationSession :=
  { ConversationSession.init "co" none "t0" "mdl" with
    messages := [msgC 0, msgC 1, msgC 2, msgC 3]
    pinned_messages := [2, 0] }

/-- C4 counterexample: with pins recorded in the order [2, 0] on a 4-message
session and ceiling 2, the rescued messages enter the new ledger as
[messages[2], messages[0]] — the order of the pinned list, not ascending
original index. -/
theorem c4_counterexample :
    2 < sOutOfOrderW.messages.length ∧ oldUnpinned 2 sOutOfOrderW ≠ [] ∧
    rescuedPinned 2 sOutOfOrderW = [msgC 2, msgC 0] ∧
    rescuedPinned 2 sOutOfOrderW ≠ [msgC 0, msgC 2] ∧
    (optimizeSession 2 sOutOfOrderW).1.messages
      = summaryMessage 2 sOutOfOrderW :: ([msgC 2, msgC 0] ++ [msgC 3]) := by
  refine ⟨by decide, by decide, by decide, by decide, by decide⟩

theorem get?_of_mem_enum {l : List MessageData} {p : Nat × MessageData}
    (hp : p ∈ l.enum) : l.get? p.1 = some p.2 := by
  have := List.mem_enum_iff_getElem?.mp hp
  simpa [← List.get?_eq_getElem?] using this

/-- C4 (amended): when the rewrite runs (at least one old-prefix message
unpinned), every pinned position in the old prefix is rescued — its message
appears in the new ledger, which consists of the summary, then the rescued
messages in the order their positions occur in the pinned list (pin-insertion
order, not ascending original index), then the recent suffix — and the
discard set used for the summary draws only from unpinned old-prefix
positions. -/
theorem c4_amended_rescue (L : Nat) (s : ConversationSession)
    (h1 : L < s.messages.length) (h2 : oldUnpinned L s ≠ []) :
    (optimizeSession L s).1.messages
      = summaryMessage L s ::
          (rescuedPinned L s ++ pySliceLast s.messages (L / 2)) ∧
    (∀ idx : Int, idx ∈ s.pinned_messages →
      idx < (s.messages.length : Int) - ((L / 2 : Nat) : Int) →
      ∀ msg, pyIndex s.messages idx = some msg →
        msg ∈ (optimizeSession L s).1.messages) ∧
    (∀ msg ∈ oldUnpinned L s, ∃ i : Nat, ((i : Int) ∉ s.pinned_messages) ∧
      (pySliceDropLast s.messages (L / 2)).get? i = some msg) := by
  have heq := optimizeSession_eq_of_rewrite h1 h2
  refine ⟨by rw [heq], ?_, ?_⟩
  · intro idx hmem hlt msg hget
    rw [heq]
    show msg ∈ summaryMessage L s ::
      (rescuedPinned L s ++ pySliceLast s.messages (L / 2))
    apply List.mem_cons_of_mem
    apply List.mem_append_left
    unfold rescuedPinned
    exact List.mem_filterMap.mpr
      ⟨idx, List.mem_filter.mpr ⟨hmem, by simpa using hlt⟩, hget⟩
  · intro msg hmsg
    unfold oldUnpinned at hmsg
    rcases List.mem_map.mp hmsg with ⟨p, hpf, rfl⟩
    obtain ⟨hpe, hcond⟩ := List.mem_filter.mp hpf
    exact ⟨p.1, by simpa using hcond, get?_of_mem_enum hpe⟩

theorem c4_witness :
    2 < sRescueW.messages.length ∧ oldUnpinned 2 sRescueW ≠ [] ∧
    (optimizeSession 2 sRescueW).1.messages
      = summaryMessage 2 sRescueW ::
          (rescuedPinned 2 sRescueW ++ pySliceLast sRescueW.messages 1) :=
  ⟨by decide, by decide,
    (c4_amended_rescue 2 sRescueW (by decide) (by decide)).1⟩

/-- C5: with ceiling 50 and a 120-message unpinned session, `optimize_memory`
keeps the 25 most recent messages (`keep = 50 / 2`), synthesizes one
system-role summary whose token estimate is one tenth (integer division) of
the 95 discarded messages' token sum, and reports
`optimized, old_count = 120, new_count = 26`. -/
theorem c5_scenario_b (s : ConversationSession)
    (hlen : s.messages.length = 120) (hpin : s.pinned_messages = []) :
    (optimizeSession 50 s).2
      = .optimized 120 26
          (((s.messages.take 95).map MessageData.tokens).sum
            - ((s.messages.take 95).map MessageData.tokens).sum / 10) true ∧
    (optimizeSession 50 s).1.messages
      = summaryMessage 50 s :: s.messages.drop 95 ∧
    (summaryMessage 50 s).role = "system" ∧
    (summaryMessage 50 s).tokens
      = ((s.messages.take 95).map MessageData.tokens).sum / 10 := by
  have hold : oldUnpinned 50 s = s.messages.take 95 := by
    unfold oldUnpinned
    rw [hpin]
    have hsl : pySliceDropLast s.messages (50 / 2) = s.messages.take 95 := by
      unfold pySliceDropLast
      rw [hlen]
      norm_num
    rw [hsl]
    have hfil : ((s.messages.take 95).enum.filter
        (fun p => ((p.1 : Int) ∉ ([] : List Int)))) = (s.messages.take 95).enum := by
      apply List.filter_eq_self.mpr
      intro a _
      simp
    simp only [hfil, List.enum_map_snd]
  have hrec : pySliceLast s.messages (50 / 2) = s.messages.drop 95 := by
    unfold pySliceLast
    rw [hlen]
    norm_num
  have hres : rescuedPinned 50 s = [] := by
    unfold rescuedPinned
    rw [hpin]
    rfl
  have htake : (s.messages.take 95).length = 95 := by
    rw [List.length_take, hlen]
    omega
  have hne : oldUnpinned 50 s ≠ [] := by
    rw [hold]
    intro hx
    rw [hx] at htake
    simp at htake
  have h1 : 50 < s.messages.length := by
    rw [hlen]
    norm_num
  have heq := optimizeSession_eq_of_rewrite h1 hne
  have hlen2 : (summaryMessage 50 s ::
      (rescuedPinned 50 s ++ pySliceLast s.messages (50 / 2))).length = 26 := by
    rw [hres, hrec]
    simp [List.length_drop, hlen]
  refine ⟨?_, ?_, rfl, ?_⟩
  · rw [heq]
    show OptimizeResult.optimized s.messages.length _ _ true = _
    rw [hlen, hlen2, hold]
  · rw [heq]
    show summaryMessage 50 s :: (rescuedPinned 50 s ++ pySliceLast s.messages (50 / 2)) = _
    rw [hres, hrec]
    rfl
  · show ((oldUnpinned 50 s).map MessageData.tokens).sum / 10 = _
    rw [hold]

/-- A 120-message unpinned session with 2 tokens per message. -/
def sW120 : ConversationSession :=
  { ConversationSession.init "s120" none "t0" "mdl" with
    messages := List.replicate 120 ⟨"user", "m", "t", 2, []⟩ }

theorem c5_witness :
    sW120.messages.length = 120 ∧ sW120.pinned_messages = [] ∧
    (optimizeSession 50 sW120).2
      = .optimized 120 26
          (((sW120.messages.take 95).map MessageData.tokens).sum
            - ((sW120.messages.take 95).map MessageData.tokens).sum / 10) true :=
  ⟨by decide, rfl, (c5_scenario_b sW120 (by decide) rfl).1⟩

/-- C9: with pairwise-distinct creation timestamps and more than `maxKept`
backups, `cleanup_old_backups` deletes exactly the backups beyond the
`maxKept` most recent: it reports `total - maxKept` deletions, exactly
`maxKept` backups remain, and every deleted backup is strictly older than
every remaining one. -/
theorem c9_cleanup (files : List BackupFileInfo) (maxKept : Nat)
    (hd : (files.map BackupFileInfo.created_at).Nodup)
    (hlen : maxKept < files.length) :
    (cleanup_old_backups files maxKept).2 = files.length - maxKept ∧
    (cleanup_old_backups files maxKept).1.length = maxKept ∧
    (∀ rb ∈ (cleanup_old_backups files maxKept).1, ∀ d ∈ files,
      d ∉ (cleanup_old_backups files maxKept).1 →
      d.created_at < rb.created_at) := by
  haveI htot : IsTotal BackupFileInfo (fun a b => b.created_at ≤ a.created_at) :=
    ⟨fun a b => le_total b.created_at a.created_at⟩
  haveI htrans : IsTrans BackupFileInfo (fun a b => b.created_at ≤ a.created_at) :=
    ⟨fun a b c hab hbc => le_trans hbc hab⟩
  have hperm : List.Perm (list_backups files) files := List.perm_insertionSort _ files
  have hsorted : List.Sorted (fun a b => b.created_at ≤ a.created_at)
      (list_backups files) := List.sorted_insertionSort _ files
  have hlenS : (list_backups files).length = files.length := hperm.length_eq
  have hnotle : ¬ ((list_backups files).length ≤ maxKept) := by omega
  have hclean : cleanup_old_backups files maxKept
      = (files.filter (fun f => f ∉ (list_backups files).drop maxKept),
         ((list_backups files).drop maxKept).length) := by
    simp only [cleanup_old_backups]
    rw [if_neg hnotle]
  set T := (list_backups files).take maxKept with hT
  set D := (list_backups files).drop maxKept with hD
  have htd : T ++ D = list_backups files :=
    List.take_append_drop maxKept (list_backups files)
  have hnd_files : files.Nodup := List.Nodup.of_map _ hd
  have hnd_S : (list_backups files).Nodup := (hperm.nodup_iff).mpr hnd_files
  have hnd_TD : (T ++ D).Nodup := by
    rw [htd]
    exact hnd_S
  obtain ⟨hndT, hndD, hdisj⟩ := List.nodup_append.mp hnd_TD
  have hpw : List.Pairwise (fun a b => b.created_at ≤ a.created_at) (T ++ D) := by
    rw [htd]
    exact hsorted
  obtain ⟨-, -, hcross⟩ := List.pairwise_append.mp hpw
  have hndmap : ((T ++ D).map BackupFileInfo.created_at).Nodup := by
    rw [htd]
    exact ((hperm.map _).nodup_iff).mpr hd
  have hpw_ne : List.Pairwise
      (fun a b => a.created_at ≠ b.created_at) (T ++ D) :=
    List.pairwise_map.mp hndmap
  obtain ⟨-, -, hcross_ne⟩ := List.pairwise_append.mp hpw_ne
  have hpermF : List.Perm (files.filter (fun f => f ∉ D)) ((T ++ D).filter (fun f => f ∉ D)) := by
    refine List.Perm.filter _ ?_
    rw [htd]
    exact hperm.symm
  have hfD : D.filter (fun f => f ∉ D) = [] := by
    apply List.filter_eq_nil_iff.mpr
    intro a ha
    simp [ha]
  have hfT : T.filter (fun f => f ∉ D) = T := by
    apply List.filter_eq_self.mpr
    intro a ha
    simpa using hdisj ha
  have hpermT : List.Perm (files.filter (fun f => f ∉ D)) T := by
    have hx := hpermF
    rw [List.filter_append, hfD, hfT, List.append_nil] at hx
    exact hx
  have hTlen : T.length = maxKept := by
    rw [hT, List.length_take, hlenS]
    exact Nat.min_eq_left (Nat.le_of_lt hlen)
  refine ⟨?_, ?_, ?_⟩
  · rw [hclean]
    show D.length = _
    rw [hD, List.length_drop, hlenS]
  · rw [hclean]
    show (files.filter (fun f => f ∉ D)).length = maxKept
    rw [hpermT.length_eq, hTlen]
  · intro rb hrb d hdf hdnr
    rw [hclean] at hrb hdnr
    have hrbT : rb ∈ T := (hpermT.mem_iff).mp hrb
    have hdD : d ∈ D := by
      by_contra hdD
      apply hdnr
      exact List.mem_filter.mpr ⟨hdf, by simpa using hdD⟩
    have hle : d.created_at ≤ rb.created_at := hcross rb hrbT d hdD
    have hne : rb.created_at ≠ d.created_at := hcross_ne rb hrbT d hdD
    exact lt_of_le_of_ne hle hne.symm

/-- Fifteen backups with distinct creation timestamps 0..14. -/
def filesW : List BackupFileInfo :=
  (List.range 15).map (fun i => { filename := "b" ++ toString i, created_at := i })

theorem c9_witness :
    (filesW.map BackupFileInfo.created_at).Nodup ∧ 10 < filesW.length ∧
    (cleanup_old_backups filesW 10).2 = 5 ∧
    (cleanup_old_backups filesW 10).1.length = 10 := by
  have h := c9_cleanup filesW 10 (by decide) (by decide)
  refine ⟨by decide, by decide, ?_, h.2.1⟩
  rw [h.1]
  decide
